import Mathlib

/-!
Verification of the LocalRAG chunking and retrieval core.

Shallow embedding of `tree_sitter_chunker.py` and `vector_store.py`.
Python strings are modelled as `List Char` (one element per code point, so
`List.length` agrees with Python `len`).  The external `hashlib.md5(...)
.hexdigest()` oracle is a function parameter `md5hex : Str → Str`; theorems
quantify over it and concrete evaluations instantiate it with the stand-in
`md5hexModel`.  The ChromaDB collection is external: writes are modelled as
the list of batch payloads handed to `collection.add`, and `search` is
modelled on the ranked `(id, document, metadata, distance)` tuples the
collection returns.
-/

set_option maxRecDepth 4000

/-- Python strings, one `Char` per code point. -/
abbrev Str := List Char

/-- Literal helper: the character list of a Lean string literal. -/
def str (s : String) : Str := s.data

/-- Python `str(n)` for a non-negative integer. -/
def natStr (n : Nat) : Str := (Nat.repr n).data

/-- Python `'\n'.join(groups)`. -/
def joinNl : List Str → Str
  | [] => []
  | [g] => g
  | g :: gs => g ++ '\n' :: joinNl gs

/-- One step of Python `split('\n')`: prepend character `c` to the groups of
the rest of the text. -/
def splitNlCons (c : Char) (groups : List Str) : List Str :=
  match groups with
  | [] => [[]]
  | g :: gs => if c = '\n' then [] :: g :: gs else (c :: g) :: gs

/-- Python `s.split('\n')`: always at least one group, `"".split` giving `[""]`. -/
def splitNl : Str → List Str
  | [] => [[]]
  | c :: rest => splitNlCons c (splitNl rest)

/-- `splitNl` never returns the empty list of groups. -/
theorem splitNl_ne_nil (s : Str) : splitNl s ≠ [] := by
  cases s with
  | nil => simp [splitNl]
  | cons c rest =>
    show splitNlCons c (splitNl rest) ≠ []
    rcases h : splitNl rest with _ | ⟨g, gs⟩
    · simp [splitNlCons]
    · by_cases hc : c = '\n' <;> simp [splitNlCons, hc]

/-- Joining the groups of `splitNl` restores the original text, exactly as
Python `'\n'.join(s.split('\n')) == s`. -/
theorem joinNl_splitNl (s : Str) : joinNl (splitNl s) = s := by
  induction s with
  | nil => rfl
  | cons c rest ih =>
    rcases h : splitNl rest with _ | ⟨g, gs⟩
    · exact absurd h (splitNl_ne_nil rest)
    · rw [h] at ih
      show joinNl (splitNlCons c (splitNl rest)) = c :: rest
      rw [h]
      unfold splitNlCons
      by_cases hc : c = '\n'
      · subst hc
        simp only [if_pos rfl]
        calc joinNl ([] :: g :: gs) = '\n' :: joinNl (g :: gs) := rfl
          _ = '\n' :: rest := by rw [ih]
      · simp only [if_neg hc]
        cases gs with
        | nil =>
          show c :: g = c :: rest
          have hg : joinNl [g] = g := rfl
          rw [hg] at ih
          rw [ih]
        | cons g₂ gs₂ =>
          calc joinNl ((c :: g) :: g₂ :: gs₂)
              = (c :: g) ++ '\n' :: joinNl (g₂ :: gs₂) := rfl
            _ = c :: (g ++ '\n' :: joinNl (g₂ :: gs₂)) := by simp
            _ = c :: joinNl (g :: g₂ :: gs₂) := rfl
            _ = c :: rest := by rw [ih]

/-- A text without a newline splits into the single group holding it. -/
theorem splitNl_of_no_newline (s : Str) (h : ∀ c ∈ s, c ≠ '\n') :
    splitNl s = [s] := by
  induction s with
  | nil => rfl
  | cons c rest ih =>
    have hrest : splitNl rest = [rest] := ih (fun x hx => h x (List.mem_cons_of_mem _ hx))
    have hc : c ≠ '\n' := h c (List.mem_cons_self _ _)
    show splitNlCons c (splitNl rest) = [c :: rest]
    rw [hrest]
    simp [splitNlCons, hc]

/-- `joinNl` over an append of two non-empty group lists inserts one newline
at the seam. -/
theorem joinNl_append : ∀ (xs ys : List Str), xs ≠ [] → ys ≠ [] →
    joinNl (xs ++ ys) = joinNl xs ++ '\n' :: joinNl ys
  | [], _, hx, _ => absurd rfl hx
  | [g], ys, _, hy => by
      cases ys with
      | nil => exact absurd rfl hy
      | cons y ys₂ => simp [joinNl]
  | g :: g₂ :: gs₂, ys, _, hy => by
      have ih := joinNl_append (g₂ :: gs₂) ys (by simp) hy
      simp only [List.cons_append]
      calc joinNl (g :: g₂ :: (gs₂ ++ ys))
          = g ++ '\n' :: joinNl (g₂ :: (gs₂ ++ ys)) := rfl
        _ = g ++ '\n' :: (joinNl (g₂ :: gs₂) ++ '\n' :: joinNl ys) := by
              rw [show joinNl (g₂ :: (gs₂ ++ ys)) = joinNl ((g₂ :: gs₂) ++ ys) from rfl, ih]
        _ = (g ++ '\n' :: joinNl (g₂ :: gs₂)) ++ '\n' :: joinNl ys := by simp
        _ = joinNl (g :: g₂ :: gs₂) ++ '\n' :: joinNl ys := rfl

/-- Python `needle == hay[:len(needle)]` (needle starts the haystack). -/
def isHeadOf : Str → Str → Bool
  | [], _ => true
  | _ :: _, [] => false
  | a :: as, b :: bs => a == b && isHeadOf as bs

/-- Python substring test `needle in hay`. -/
def occursIn : Str → Str → Bool
  | needle, [] => isHeadOf needle []
  | needle, b :: t => isHeadOf needle (b :: t) || occursIn needle t

/-- Values a chunk-metadata dictionary can hold (`str`, `int`, `bool`). -/
inductive MVal : Type where
  | s (v : Str)
  | n (v : Nat)
  | b (v : Bool)
deriving DecidableEq, Repr

/-- A Python dict with string keys, in insertion order (later keys override). -/
abbrev MDict := List (String × MVal)

/-- `TreeSitterConfig` from `config.py`, with its declared defaults. -/
structure TreeSitterConfig where
  chunk_by_functions : Bool := true
  chunk_by_classes : Bool := true
  chunk_by_methods : Bool := true
  include_docstrings : Bool := true
  include_comments : Bool := true
  min_chunk_size : Nat := 50
  max_chunk_size : Nat := 2000
  overlap_size : Nat := 200
  include_imports : Bool := true
  include_class_context : Bool := true
deriving DecidableEq, Repr

/-- The default `TreeSitterConfig()`. -/
def defaultTSConfig : TreeSitterConfig := {}

/-- `ChromaDBConfig` retrieval defaults from `config.py`
(scores modelled as rationals). -/
structure ChromaDBConfig where
  top_k : Nat := 8
  similarity_threshold : ℚ := 1 / 10
deriving DecidableEq, Repr

/-- The default `ChromaDBConfig()`. -/
def defaultChromaConfig : ChromaDBConfig := {}

/-- The `CodeChunk` dataclass of `tree_sitter_chunker.py`, after
`__post_init__` has run (so `metadata` and `chunk_id` are filled in). -/
structure CodeChunk where
  content : Str
  chunk_type : Str
  language : Str
  file_path : Str
  start_line : Nat
  end_line : Nat
  name : Option Str := none
  parent_context : Option Str := none
  metadata : MDict := []
  chunk_id : Str
deriving DecidableEq, Repr

/-- `CodeChunk._generate_id`: md5 of `f"{file_path}:{start_line}:{content}"`,
hex digest truncated to 12 characters, prefixed `{language}_{chunk_type}_`. -/
def generateId (md5hex : Str → Str) (language chunk_type file_path : Str)
    (start_line : Nat) (content : Str) : Str :=
  let contentHash := md5hex (file_path ++ str ":" ++ natStr start_line ++ str ":" ++ content)
  language ++ str "_" ++ chunk_type ++ str "_" ++ contentHash.take 12

/-- `CodeChunk(...)` construction followed by `__post_init__`: a `None`
metadata becomes `{}`, a `None` chunk_id is generated by `_generate_id`. -/
def mkCodeChunk (md5hex : Str → Str) (content chunk_type language file_path : Str)
    (start_line end_line : Nat) (name parent_context : Option Str)
    (metadata : Option MDict) (chunk_id : Option Str) : CodeChunk :=
  { content := content
    chunk_type := chunk_type
    language := language
    file_path := file_path
    start_line := start_line
    end_line := end_line
    name := name
    parent_context := parent_context
    metadata := metadata.getD []
    chunk_id := chunk_id.getD (generateId md5hex language chunk_type file_path start_line content) }

/-- Stand-in for the external `hashlib.md5(...).hexdigest()` oracle used by
concrete evaluations; theorems about identity quantify over the oracle. -/
def md5hexModel (s : Str) : Str :=
  Nat.toDigits 16 (s.foldl (fun a c => (a * 131 + c.toNat) % (2 ^ 64)) 7)

/-- A tree-sitter syntax node: a type tag, `(row, column)` start and end
points, named fields (each field child also appears among the children, as in
tree-sitter), and the ordered child list. -/
inductive TSNode : Type where
  | mk (nodeType : String) (startPoint endPoint : Nat × Nat)
       (fields : List (String × TSNode)) (children : List TSNode)

/-- `node.type`. -/
def TSNode.nodeType : TSNode → String
  | .mk t _ _ _ _ => t

/-- `node.start_point`. -/
def TSNode.startPoint : TSNode → Nat × Nat
  | .mk _ s _ _ _ => s

/-- `node.end_point`. -/
def TSNode.endPoint : TSNode → Nat × Nat
  | .mk _ _ e _ _ => e

/-- The node's named fields. -/
def TSNode.fields : TSNode → List (String × TSNode)
  | .mk _ _ _ f _ => f

/-- `node.children`. -/
def TSNode.children : TSNode → List TSNode
  | .mk _ _ _ _ c => c

/-- `node.start_point[0]`. -/
def TSNode.startRow (n : TSNode) : Nat := n.startPoint.1

/-- `node.end_point[0]`. -/
def TSNode.endRow (n : TSNode) : Nat := n.endPoint.1

/-- `node.child_by_field_name(f)`. -/
def childByField (n : TSNode) (f : String) : Option TSNode :=
  (n.fields.find? (fun p => p.1 == f)).map (fun p => p.2)

/-- `TreeSitterChunker._get_node_text`: span-exact text of a node, `""` for a
missing node; column-bounded on a single line, otherwise the tail of the
start line, the intervening whole lines and the head of the end line. -/
def getNodeText (node : Option TSNode) (codeLines : List Str) : Str :=
  match node with
  | none => []
  | some n =>
      let sr := n.startPoint.1
      let sc := n.startPoint.2
      let er := n.endPoint.1
      let ec := n.endPoint.2
      if sr = er then ((codeLines.getD sr []).drop sc).take (ec - sc)
      else
        ((codeLines.getD sr []).drop sc)
          ++ ((List.range' (sr + 1) (er - (sr + 1))).flatMap
                (fun row => '\n' :: codeLines.getD row []))
          ++ '\n' :: (codeLines.getD er []).take ec

/-- `TreeSitterChunker._get_node_content`: the complete physical lines
`start_line..end_line` of the node, joined by newlines. -/
def getNodeContent (n : TSNode) (codeLines : List Str) : Str :=
  joinNl ((codeLines.drop n.startRow).take (n.endRow + 1 - n.startRow))

/-- Python `s.strip('"\'')`: remove every leading and trailing quote
character. -/
def stripQuotes (s : Str) : Str :=
  let isQuote := fun c => c = '"' || c = '\''
  (((s.dropWhile isQuote).reverse).dropWhile isQuote).reverse

/-- `TreeSitterChunker._extract_docstring`: the stripped text of a string
literal standing as the first statement of the node's body, if any. -/
def extractDocstring (node : TSNode) (codeLines : List Str) : Option Str :=
  match childByField node "body" with
  | none => none
  | some body =>
      match body.children with
      | [] => none
      | firstChild :: _ =>
          if firstChild.nodeType = "expression_statement" then
            match firstChild.children with
            | [] => none
            | stringNode :: _ =>
                if stringNode.nodeType = "string" then
                  some (stripQuotes (getNodeText (some stringNode) codeLines))
                else none
          else none

/-- Python truthiness of the optional `parent_class` string argument
(`None` and `""` are falsy). -/
def pcTruthy : Option Str → Bool
  | none => false
  | some s => !s.isEmpty

/-- Python truthiness of the optional docstring (`None` and `""` falsy). -/
def dsTruthy : Option Str → Bool
  | none => false
  | some d => !d.isEmpty

/-- `TreeSitterChunker._extract_function_chunk` (the chunk it appends):
name and content from the node, a docstring prepended when enabled, present
and not already a substring, chunk type `method` exactly when the
`parent_class` argument is truthy. -/
def extractFunctionChunk (cfg : TreeSitterConfig) (md5hex : Str → Str)
    (node : TSNode) (codeLines : List Str) (filePath : Str)
    (parentClass : Option Str) : CodeChunk :=
  let funcName := getNodeText (childByField node "name") codeLines
  let content₀ := getNodeContent node codeLines
  let ds := if cfg.include_docstrings then extractDocstring node codeLines else none
  let funcContent :=
    match ds with
    | some d =>
        if d.isEmpty = false && occursIn d content₀ = false then
          str "\"\"\"" ++ d ++ str "\"\"\"" ++ '\n' :: content₀
        else content₀
    | none => content₀
  let chunkType := if pcTruthy parentClass then str "method" else str "function"
  mkCodeChunk md5hex funcContent chunkType (str "python") filePath
    node.startRow node.endRow (some funcName) parentClass
    (some [("has_docstring", MVal.b (dsTruthy ds))]) none

/-- The class chunk emitted for a Python `class_definition` node. -/
def pyClassChunk (md5hex : Str → Str) (node : TSNode) (codeLines : List Str)
    (filePath : Str) (className : Str) : CodeChunk :=
  mkCodeChunk md5hex (getNodeContent node codeLines) (str "class") (str "python")
    filePath node.startRow node.endRow (some className) none none none

mutual

/-- The body of `TreeSitterChunker._extract_python_chunks.traverse`: the
chunks appended at `node` itself followed by the chunks of the depth-first
traversal of its children (the `parent_class` argument is passed down
unchanged, exactly as in the source). -/
def pyTraverse (cfg : TreeSitterConfig) (md5hex : Str → Str)
    (codeLines : List Str) (filePath : Str) :
    TSNode → Option Str → List CodeChunk
  | TSNode.mk ty sp ep fs cs, parentClass =>
      let node := TSNode.mk ty sp ep fs cs
      let here :=
        if ty = "class_definition" && cfg.chunk_by_classes then
          let className := getNodeText (childByField node "name") codeLines
          pyClassChunk md5hex node codeLines filePath className ::
            (if cfg.chunk_by_methods then
              (cs.filter (fun c => c.nodeType = "function_definition")).map
                (fun c => extractFunctionChunk cfg md5hex c codeLines filePath (some className))
            else [])
        else if ty = "function_definition" && cfg.chunk_by_functions then
          [extractFunctionChunk cfg md5hex node codeLines filePath parentClass]
        else []
      here ++ pyTraverseChildren cfg md5hex codeLines filePath cs parentClass

/-- The `for child in node.children: traverse(child, parent_class)` loop of
the Python extractor, in source order. -/
def pyTraverseChildren (cfg : TreeSitterConfig) (md5hex : Str → Str)
    (codeLines : List Str) (filePath : Str) :
    List TSNode → Option Str → List CodeChunk
  | [], _ => []
  | c :: rest, parentClass =>
      pyTraverse cfg md5hex codeLines filePath c parentClass
        ++ pyTraverseChildren cfg md5hex codeLines filePath rest parentClass

end

/-- `TreeSitterChunker._extract_python_chunks`. -/
def extractPythonChunks (cfg : TreeSitterConfig) (md5hex : Str → Str)
    (rootNode : TSNode) (codeLines : List Str) (filePath : Str) : List CodeChunk :=
  pyTraverse cfg md5hex codeLines filePath rootNode none

mutual

/-- The body of `TreeSitterChunker._extract_javascript_chunks.traverse`:
function chunks for function-like nodes (`'anonymous'` when the name field is
missing or empty), class chunks for class declarations, generic recursion. -/
def jsTraverse (cfg : TreeSitterConfig) (md5hex : Str → Str)
    (codeLines : List Str) (filePath : Str) (language : Str) :
    TSNode → Option Str → List CodeChunk
  | TSNode.mk ty sp ep fs cs, parentClass =>
      let node := TSNode.mk ty sp ep fs cs
      let here :=
        if (ty = "function_declaration" || ty = "function") && cfg.chunk_by_functions then
          let name₀ := getNodeText (childByField node "name") codeLines
          let funcName := if name₀.isEmpty then str "anonymous" else name₀
          [mkCodeChunk md5hex (getNodeContent node codeLines) (str "function") language
            filePath node.startRow node.endRow (some funcName) none none none]
        else if ty = "class_declaration" && cfg.chunk_by_classes then
          let className := getNodeText (childByField node "name") codeLines
          [mkCodeChunk md5hex (getNodeContent node codeLines) (str "class") language
            filePath node.startRow node.endRow (some className) none none none]
        else []
      here ++ jsTraverseChildren cfg md5hex codeLines filePath language cs parentClass

/-- The child loop of the JavaScript extractor, in source order. -/
def jsTraverseChildren (cfg : TreeSitterConfig) (md5hex : Str → Str)
    (codeLines : List Str) (filePath : Str) (language : Str) :
    List TSNode → Option Str → List CodeChunk
  | [], _ => []
  | c :: rest, parentClass =>
      jsTraverse cfg md5hex codeLines filePath language c parentClass
        ++ jsTraverseChildren cfg md5hex codeLines filePath language rest parentClass

end

/-- `TreeSitterChunker._extract_javascript_chunks`. -/
def extractJavascriptChunks (cfg : TreeSitterConfig) (md5hex : Str → Str)
    (rootNode : TSNode) (codeLines : List Str) (filePath : Str)
    (language : Str) : List CodeChunk :=
  jsTraverse cfg md5hex codeLines filePath language rootNode none

mutual

/-- The body of `TreeSitterChunker._extract_java_chunks.traverse`: class
chunks for class declarations, method chunks for method declarations (with
the never-updated `parent_class` as context), generic recursion. -/
def javaTraverse (cfg : TreeSitterConfig) (md5hex : Str → Str)
    (codeLines : List Str) (filePath : Str) :
    TSNode → Option Str → List CodeChunk
  | TSNode.mk ty sp ep fs cs, parentClass =>
      let node := TSNode.mk ty sp ep fs cs
      let here :=
        if ty = "class_declaration" && cfg.chunk_by_classes then
          let className := getNodeText (childByField node "name") codeLines
          [mkCodeChunk md5hex (getNodeContent node codeLines) (str "class") (str "java")
            filePath node.startRow node.endRow (some className) none none none]
        else if ty = "method_declaration" && cfg.chunk_by_methods then
          let methodName := getNodeText (childByField node "name") codeLines
          [mkCodeChunk md5hex (getNodeContent node codeLines) (str "method") (str "java")
            filePath node.startRow node.endRow (some methodName) parentClass none none]
        else []
      here ++ javaTraverseChildren cfg md5hex codeLines filePath cs parentClass

/-- The child loop of the Java extractor, in source order. -/
def javaTraverseChildren (cfg : TreeSitterConfig) (md5hex : Str → Str)
    (codeLines : List Str) (filePath : Str) :
    List TSNode → Option Str → List CodeChunk
  | [], _ => []
  | c :: rest, parentClass =>
      javaTraverse cfg md5hex codeLines filePath c parentClass
        ++ javaTraverseChildren cfg md5hex codeLines filePath rest parentClass

end

/-- `TreeSitterChunker._extract_java_chunks`. -/
def extractJavaChunks (cfg : TreeSitterConfig) (md5hex : Str → Str)
    (rootNode : TSNode) (codeLines : List Str) (filePath : Str) : List CodeChunk :=
  javaTraverse cfg md5hex codeLines filePath rootNode none

/-- The `import_types` table of `TreeSitterChunker._extract_imports`,
including the `.get(language, [])` default. -/
def importTypes (language : Str) : List String :=
  if language = str "python" then ["import_statement", "import_from_statement"]
  else if language = str "javascript" then ["import_statement"]
  else if language = str "java" then ["import_declaration"]
  else []

/-- The import chunk emitted for one import-like top-level node. -/
def mkImportChunk (md5hex : Str → Str) (node : TSNode) (codeLines : List Str)
    (filePath : Str) (language : Str) : CodeChunk :=
  mkCodeChunk md5hex (getNodeContent node codeLines) (str "import") language
    filePath node.startRow node.endRow none none none none

/-- The loop of `TreeSitterChunker._extract_imports` over the root's
children. -/
def importsLoop (md5hex : Str → Str) (codeLines : List Str) (filePath : Str)
    (language : Str) : List TSNode → List CodeChunk
  | [] => []
  | n :: rest =>
      if n.nodeType ∈ importTypes language then
        mkImportChunk md5hex n codeLines filePath language ::
          importsLoop md5hex codeLines filePath language rest
      else importsLoop md5hex codeLines filePath language rest

/-- `TreeSitterChunker._extract_imports`: one import chunk per import-like
node among the direct children of the file root. -/
def extractImports (md5hex : Str → Str) (rootNode : TSNode)
    (codeLines : List Str) (filePath : Str) (language : Str) : List CodeChunk :=
  importsLoop md5hex codeLines filePath language rootNode.children

/-- `TreeSitterChunker._is_valid_chunk`:
`min_chunk_size <= len(content) <= max_chunk_size`. -/
def isValidChunk (cfg : TreeSitterConfig) (c : CodeChunk) : Bool :=
  decide (cfg.min_chunk_size ≤ c.content.length) &&
    decide (c.content.length ≤ cfg.max_chunk_size)

/-- The line-accumulation loop of `TreeSitterChunker._fallback_chunking`:
`i` is the index of the next line, `cur`/`size` the accumulator and its
character count (line lengths only, newlines not counted), `total` the total
number of lines of the file (used by the remainder chunk's span). -/
def fallbackLoop (cfg : TreeSitterConfig) (md5hex : Str → Str)
    (filePath language : Str) (total : Nat) :
    List Str → Nat → List Str → Nat → List CodeChunk
  | [], _, cur, _ =>
      if cur.isEmpty then []
      else [mkCodeChunk md5hex (joinNl cur) (str "text_block") language filePath
              (total - cur.length) (total - 1) none none none none]
  | line :: rest, i, cur, size =>
      let cur' := cur ++ [line]
      let size' := size + line.length
      if cfg.max_chunk_size ≤ size' then
        mkCodeChunk md5hex (joinNl cur') (str "text_block") language filePath
            (i + 1 - cur'.length) i none none none none ::
          fallbackLoop cfg md5hex filePath language total rest (i + 1) [] 0
      else fallbackLoop cfg md5hex filePath language total rest (i + 1) cur' size'

/-- `TreeSitterChunker._fallback_chunking` on the text read from the file. -/
def fallbackChunking (cfg : TreeSitterConfig) (md5hex : Str → Str)
    (filePath language content : Str) : List CodeChunk :=
  let lines := splitNl content
  fallbackLoop cfg md5hex filePath language lines.length lines 0 [] 0

/-- `TreeSitterChunker.chunk_file` on the text read from the file:
`supported` models `language in self.parsers`, `tree` the tree-sitter parse
of the text. Tree-path chunks are size-filtered; fallback chunks are
returned as produced. -/
def chunkFile (cfg : TreeSitterConfig) (md5hex : Str → Str) (filePath : Str)
    (language : Str) (supported : Bool) (tree : TSNode) (content : Str) :
    List CodeChunk :=
  if supported = false then fallbackChunking cfg md5hex filePath language content
  else
    let codeLines := splitNl content
    let importChunks :=
      if cfg.include_imports then extractImports md5hex tree codeLines filePath language
      else []
    let bodyChunks :=
      if language = str "python" then
        extractPythonChunks cfg md5hex tree codeLines filePath
      else if language = str "javascript" || language = str "typescript" then
        extractJavascriptChunks cfg md5hex tree codeLines filePath language
      else if language = str "java" then
        extractJavaChunks cfg md5hex tree codeLines filePath
      else []
    (importChunks ++ bodyChunks).filter (fun c => isValidChunk cfg c)

/-- One ranked answer of `collection.query`: id, document, metadata and
distance at one index of ChromaDB's parallel result lists (distances as
rationals). -/
structure QueryHit where
  id : Str
  document : Str
  metadata : MDict
  distance : ℚ
deriving DecidableEq, Repr

/-- One element of the list `CodeVectorStore.search` returns. -/
structure RetrievedChunk where
  chunk_id : Str
  content : Str
  metadata : MDict
  similarity : ℚ
  rank : Nat
deriving DecidableEq, Repr

/-- The result loop of `CodeVectorStore.search`: enumerate the store's hits
from index `i`, convert distance to `similarity = 1 - distance`, keep a hit
iff `similarity >= threshold`, recording `rank = index + 1`.  The source's
`if results['ids'][0]:` guard coincides with the empty case. -/
def searchLoop (threshold : ℚ) : Nat → List QueryHit → List RetrievedChunk
  | _, [] => []
  | i, h :: rest =>
      let similarity := 1 - h.distance
      if threshold ≤ similarity then
        { chunk_id := h.id, content := h.document, metadata := h.metadata,
          similarity := similarity, rank := i + 1 } ::
          searchLoop threshold (i + 1) rest
      else searchLoop threshold (i + 1) rest

/-- `CodeVectorStore.search` after the store answered `hits`: threshold the
converted similarities, then truncate the survivors to `top_k`. -/
def searchPost (hits : List QueryHit) (threshold : ℚ) (topK : Nat) :
    List RetrievedChunk :=
  (searchLoop threshold 0 hits).take topK

/-- The metadata dictionary `add_chunks` builds for one chunk (the
`**chunk.metadata` merge appends the chunk's own entries, later keys
overriding). -/
def chunkWriteMetadata (c : CodeChunk) : MDict :=
  [("chunk_type", MVal.s c.chunk_type),
   ("language", MVal.s c.language),
   ("file_path", MVal.s c.file_path),
   ("start_line", MVal.n c.start_line),
   ("end_line", MVal.n c.end_line),
   ("name", MVal.s (c.name.getD [])),
   ("parent_context", MVal.s (c.parent_context.getD []))] ++ c.metadata

/-- The payload of one `collection.add(ids=..., documents=..., metadatas=...)`
call. -/
structure BatchWrite where
  ids : List Str
  documents : List Str
  metadatas : List MDict
deriving DecidableEq, Repr

/-- The three parallel lists `add_chunks` prepares for one batch. -/
def mkBatchWrite (batch : List CodeChunk) : BatchWrite :=
  { ids := batch.map (fun c => c.chunk_id)
    documents := batch.map (fun c => c.content)
    metadatas := batch.map chunkWriteMetadata }

/-- The batching loop `for i in range(0, len(chunks), batch_size)` of
`add_chunks`: the batch payloads in order, and the accumulated
`total_added`.  The `batchSize = 0` branch is unreachable from `addChunks`,
which models `range`'s `ValueError` before ever looping. -/
def addLoop (batchSize : Nat) : List CodeChunk → List BatchWrite × Nat
  | [] => ([], 0)
  | c :: cs =>
      match batchSize with
      | 0 => ([], 0)
      | b + 1 =>
          let batch := (c :: cs).take (b + 1)
          let rest := addLoop (b + 1) (cs.drop b)
          (mkBatchWrite batch :: rest.1, batch.length + rest.2)
termination_by l => l.length
decreasing_by
  simp only [List.length_drop, List.length_cons]
  omega

/-- `CodeVectorStore.add_chunks`: `None` result models the `ValueError`
raised by `range(0, n, 0)`; otherwise the list of `collection.add` payloads
performed, with the returned `total_added`.  An empty chunk list returns `0`
before any batching; a negative step makes `range` empty, so nothing is
written and `0` is returned. -/
def addChunks (chunks : List CodeChunk) (batchSize : Int) :
    Option (List BatchWrite × Nat) :=
  if chunks.isEmpty then some ([], 0)
  else if batchSize < 0 then some ([], 0)
  else if batchSize = 0 then none
  else some (addLoop batchSize.toNat chunks)

/-- Modelled from the spec: the partition of a list into consecutive batches
of `batchSize` (last batch possibly smaller), stated independently of the
source loop for comparison with it. -/
def specBatches (batchSize : Nat) : List CodeChunk → List (List CodeChunk)
  | [] => []
  | c :: cs =>
      match batchSize with
      | 0 => [c :: cs]
      | b + 1 => (c :: cs).take (b + 1) :: specBatches (b + 1) (cs.drop b)
termination_by l => l.length
decreasing_by
  simp only [List.length_drop, List.length_cons]
  omega

/-- The `metadata` sub-record of an exported chunk record (import reads
`name` and `parent_context` with `.get`, hence optional). -/
structure RecordMeta where
  chunk_type : Str
  language : Str
  file_path : Str
  start_line : Nat
  end_line : Nat
  name : Option Str
  parent_context : Option Str
deriving DecidableEq, Repr

/-- One exported chunk record `{id, content, metadata}`. -/
structure ChunkRecord where
  id : Str
  content : Str
  metadata : RecordMeta
deriving DecidableEq, Repr

/-- The `CodeChunk(...)` reconstruction inside
`CodeVectorStore.import_chunks`: every field from the record, `chunk_id`
passed explicitly as the stored id. -/
def recordToChunk (md5hex : Str → Str) (r : ChunkRecord) : CodeChunk :=
  mkCodeChunk md5hex r.content r.metadata.chunk_type r.metadata.language
    r.metadata.file_path r.metadata.start_line r.metadata.end_line
    r.metadata.name r.metadata.parent_context none (some r.id)

/-- `CodeVectorStore.import_chunks`: reconstruct every record and hand the
list to `add_chunks` (with its default `batch_size = 100`). -/
def importChunks (md5hex : Str → Str) (records : List ChunkRecord) :
    Option (List BatchWrite × Nat) :=
  addChunks (records.map (recordToChunk md5hex)) 100

instance : Inhabited CodeChunk :=
  ⟨{ content := [], chunk_type := [], language := [], file_path := [],
     start_line := 0, end_line := 0, chunk_id := [] }⟩

/-- Tree-sitter parse of the Python file `"class Bar:\n    def baz(self):\n        pass"`:
the `identifier` node `Bar`. -/
def idBar : TSNode := .mk "identifier" (0, 6) (0, 9) [] []

/-- The `class` keyword token of the demo file. -/
def kwClass : TSNode := .mk "class" (0, 0) (0, 5) [] []

/-- The `:` token on line 0 of the demo file. -/
def colonTok1 : TSNode := .mk ":" (0, 9) (0, 10) [] []

/-- The `identifier` node `baz`. -/
def idBaz : TSNode := .mk "identifier" (1, 8) (1, 11) [] []

/-- The `def` keyword token of the demo file. -/
def kwDef : TSNode := .mk "def" (1, 4) (1, 7) [] []

/-- The `parameters` node `(self)`. -/
def paramsBaz : TSNode := .mk "parameters" (1, 11) (1, 17) [] []

/-- The `:` token on line 1 of the demo file. -/
def colonTok2 : TSNode := .mk ":" (1, 17) (1, 18) [] []

/-- The `pass_statement` node. -/
def passStmt : TSNode := .mk "pass_statement" (2, 8) (2, 12) [] []

/-- The method's body `block`. -/
def innerBlock : TSNode := .mk "block" (2, 8) (2, 12) [] [passStmt]

/-- The `function_definition` node of method `baz`; as in the tree-sitter
Python grammar, it is a child of the class body `block`, not of the
`class_definition` node itself. -/
def funcDefBaz : TSNode :=
  .mk "function_definition" (1, 4) (2, 12)
    [("name", idBaz), ("body", innerBlock)]
    [kwDef, idBaz, paramsBaz, colonTok2, innerBlock]

/-- The class body `block`, the direct child of `class_definition` holding
the method. -/
def outerBlock : TSNode := .mk "block" (1, 4) (2, 12) [] [funcDefBaz]

/-- The `class_definition` node of class `Bar`: its direct children are the
`class` keyword, the name, the `:` token and the body block. -/
def classDefBar : TSNode :=
  .mk "class_definition" (0, 0) (2, 12)
    [("name", idBar), ("body", outerBlock)]
    [kwClass, idBar, colonTok1, outerBlock]

/-- The file root (`module`) of the demo file. -/
def moduleBar : TSNode := .mk "module" (0, 0) (2, 12) [] [classDefBar]

/-- The lines of the demo file. -/
def demoLines : List Str :=
  [str "class Bar:", str "    def baz(self):", str "        pass"]

/-- The demo file text. -/
def demoContent : Str := str "class Bar:\n    def baz(self):\n        pass"

/-- **C1.** The spec promises that a class with N methods yields 1 class
chunk plus N `method` chunks carrying `parent_context = class name`.  On the
real tree-sitter shape (methods live inside the class body `block`, which is
the class node's direct child) the per-class sweep over
`class_definition.children` finds no `function_definition`, and the generic
traversal reaches the method with the unchanged `parent_class = None`: the
method `baz` of class `Bar` is emitted as a `function` chunk with no parent
context, and no `method` chunk exists.  This contradicts the source's own
"Also extract methods from the class" intent, so it is a code bug, shown
here by evaluating the extractor on the demo file. -/
theorem c1_class_method_extraction :
    (extractPythonChunks defaultTSConfig md5hexModel moduleBar demoLines (str "demo.py")).map
        (fun c => (c.chunk_type, c.name, c.parent_context))
      = [(str "class", some (str "Bar"), none),
         (str "function", some (str "baz"), none)] := by decide

/-- An arbitrary syntax tree standing for the (unused) parse of an
unsupported-language file. -/
def emptyModule : TSNode := .mk "module" (0, 0) (0, 0) [] []

/-- The configuration used by the C2/C5 fallback counterexamples
(`max_chunk_size = 4`, `min_chunk_size = 2`). -/
def cfgFB : TreeSitterConfig := { min_chunk_size := 2, max_chunk_size := 4 }

/-- **C2, counterexample.** A single-line file of `3 * max_chunk_size`
characters in an unsupported language comes back from `chunk_file` as one
`text_block` chunk of 12 characters although `max_chunk_size` is 4: the
fallback path applies no size filter, so the claimed invariant fails. -/
theorem c2_counterexample :
    ¬ (∀ c ∈ chunkFile cfgFB md5hexModel (str "notes.txt") (str "unknown")
          false emptyModule (str "aaaaaaaaaaaa"),
        cfgFB.min_chunk_size ≤ c.content.length ∧
          c.content.length ≤ cfgFB.max_chunk_size) := by decide

/-- **C2, amended.** On the syntax-tree path (`language in self.parsers`),
every chunk returned by `chunk_file` satisfies
`min_chunk_size <= len(content) <= max_chunk_size`, because the extracted
candidates are filtered through `_is_valid_chunk`; the fallback path returns
its chunks unfiltered. -/
theorem c2_tree_path_size_bounds :
    ∀ (cfg : TreeSitterConfig) (md5hex : Str → Str) (fp lang : Str)
      (tree : TSNode) (content : Str) (c : CodeChunk),
      c ∈ chunkFile cfg md5hex fp lang true tree content →
      cfg.min_chunk_size ≤ c.content.length ∧
        c.content.length ≤ cfg.max_chunk_size := by
  intro cfg md5hex fp lang tree content c hc
  simp only [chunkFile, Bool.true_eq_false, if_false] at hc
  have hv := (List.mem_filter.mp hc).2
  simpa [isValidChunk] using hv

/-- The configuration used by the C2 witness (smaller minimum so the demo
chunks survive the filter). -/
def cfgW : TreeSitterConfig := { min_chunk_size := 10 }

/-- The chunks of the demo file on the syntax-tree path under `cfgW`. -/
def c2wChunks : List CodeChunk :=
  chunkFile cfgW md5hexModel (str "demo.py") (str "python") true moduleBar demoContent

/-- Witness for C2 (amended): the first chunk the demo file produces on the
tree path respects both bounds. -/
theorem c2_witness :
    cfgW.min_chunk_size ≤ c2wChunks.headI.content.length ∧
      c2wChunks.headI.content.length ≤ cfgW.max_chunk_size :=
  c2_tree_path_size_bounds cfgW md5hexModel (str "demo.py") (str "python")
    moduleBar demoContent c2wChunks.headI (by decide)

/-- A chunk with `chunk_type = 'class'`, for the C3 counterexample. -/
def c3chunkA : CodeChunk :=
  mkCodeChunk md5hexModel (str "x = 1") (str "class") (str "python") (str "a.py")
    3 3 none none none none

/-- A chunk with the same `(file_path, start_line, content)` but
`chunk_type = 'function'`, for the C3 counterexample. -/
def c3chunkB : CodeChunk :=
  mkCodeChunk md5hexModel (str "x = 1") (str "function") (str "python") (str "a.py")
    3 3 none none none none

/-- **C3, counterexample.** Two chunks agreeing on `file_path`, `start_line`
and `content` but differing in `chunk_type` receive different ids — the id
is prefixed with `{language}_{chunk_type}_`, so it is not a function of
`(file_path, start_line, content)` alone. -/
theorem c3_counterexample :
    (c3chunkA.file_path = c3chunkB.file_path ∧
     c3chunkA.start_line = c3chunkB.start_line ∧
     c3chunkA.content = c3chunkB.content) ∧
    c3chunkA.chunk_id ≠ c3chunkB.chunk_id := by decide

/-- **C3, amended.** `chunk_id` is a deterministic pure function of
`(language, chunk_type, file_path, start_line, content)`: for any hash
oracle, two freshly built chunks agreeing on those five fields receive the
identical id whatever their other fields, and the id is the language and the
chunk type joined by underscores followed by the first 12 characters of the
hash of `f"{file_path}:{start_line}:{content}"`. -/
theorem c3_chunk_id_function_of_five_fields :
    ∀ (md5hex : Str → Str) (content ty lang fp : Str) (sl el₁ el₂ : Nat)
      (nm₁ nm₂ pc₁ pc₂ : Option Str) (md₁ md₂ : Option MDict),
      (mkCodeChunk md5hex content ty lang fp sl el₁ nm₁ pc₁ md₁ none).chunk_id
        = (mkCodeChunk md5hex content ty lang fp sl el₂ nm₂ pc₂ md₂ none).chunk_id
      ∧ (mkCodeChunk md5hex content ty lang fp sl el₁ nm₁ pc₁ md₁ none).chunk_id
          = lang ++ str "_" ++ ty ++ str "_"
              ++ (md5hex (fp ++ str ":" ++ natStr sl ++ str ":" ++ content)).take 12 := by
  intro md5hex content ty lang fp sl el₁ el₂ nm₁ nm₂ pc₁ pc₂ md₁ md₂
  constructor
  · rfl
  · rfl

/-- `searchLoop` is the filter-and-map of the enumeration of the hits from
index `i`: survivors are exactly the hits with `threshold ≤ 1 - distance`,
in store order, and each survivor's rank is its enumeration index plus 1. -/
theorem searchLoop_eq (θ : ℚ) :
    ∀ (hits : List QueryHit) (i : Nat),
      searchLoop θ i hits
        = ((List.enumFrom i hits).filter
              (fun p => decide (θ ≤ 1 - p.2.distance))).map
            (fun p => { chunk_id := p.2.id, content := p.2.document,
                        metadata := p.2.metadata, similarity := 1 - p.2.distance,
                        rank := p.1 + 1 }) := by
  intro hits
  induction hits with
  | nil => intro i; rfl
  | cons h rest ih =>
    intro i
    by_cases hθ : θ ≤ 1 - h.distance
    · simp [searchLoop, List.enumFrom, hθ, List.filter, ih (i + 1)]
    · simp [searchLoop, List.enumFrom, hθ, List.filter, ih (i + 1)]

/-- Every result of `searchLoop` started at index `i` has rank above `i`. -/
theorem searchLoop_rank_gt (θ : ℚ) :
    ∀ (hits : List QueryHit) (i : Nat) (r : RetrievedChunk),
      r ∈ searchLoop θ i hits → i < r.rank := by
  intro hits
  induction hits with
  | nil => intro i r hr; simp [searchLoop] at hr
  | cons h rest ih =>
    intro i r hr
    by_cases hθ : θ ≤ 1 - h.distance
    · simp only [searchLoop, if_pos hθ] at hr
      rcases List.mem_cons.mp hr with rfl | hr₂
      · exact Nat.lt_succ_self i
      · exact Nat.lt_of_succ_lt (ih (i + 1) r hr₂)
    · simp only [searchLoop, if_neg hθ] at hr
      exact Nat.lt_of_succ_lt (ih (i + 1) r hr)

/-- The ranks produced by `searchLoop` are strictly increasing. -/
theorem searchLoop_ranks_sorted (θ : ℚ) :
    ∀ (hits : List QueryHit) (i : Nat),
      (searchLoop θ i hits).Pairwise (fun a b => a.rank < b.rank) := by
  intro hits
  induction hits with
  | nil => intro i; simp [searchLoop]
  | cons h rest ih =>
    intro i
    by_cases hθ : θ ≤ 1 - h.distance
    · simp only [searchLoop, if_pos hθ]
      refine List.Pairwise.cons ?_ (ih (i + 1))
      intro b hb
      have := searchLoop_rank_gt θ rest (i + 1) b hb
      simpa using this
    · simp only [searchLoop, if_neg hθ]
      exact ih (i + 1)

/-- Every result of `searchLoop` passed the threshold. -/
theorem searchLoop_similarity_ge (θ : ℚ) :
    ∀ (hits : List QueryHit) (i : Nat) (r : RetrievedChunk),
      r ∈ searchLoop θ i hits → θ ≤ r.similarity := by
  intro hits
  induction hits with
  | nil => intro i r hr; simp [searchLoop] at hr
  | cons h rest ih =>
    intro i r hr
    by_cases hθ : θ ≤ 1 - h.distance
    · simp only [searchLoop, if_pos hθ] at hr
      rcases List.mem_cons.mp hr with rfl | hr₂
      · exact hθ
      · exact ih (i + 1) r hr₂
    · simp only [searchLoop, if_neg hθ] at hr
      exact ih (i + 1) r hr

/-- **C4.** `search` post-processing: each distance `d` becomes similarity
`1 - d`; exactly the candidates with `similarity ≥ threshold` survive, in
the store's original order (the result is the filtered enumeration — never
re-sorted — truncated to `top_k`), each survivor reporting its original
1-based store rank; consequently ranks are strictly increasing along the
result and every survivor meets the threshold. -/
theorem c4_search_post_characterisation :
    ∀ (hits : List QueryHit) (θ : ℚ) (k : Nat),
      searchPost hits θ k
        = (((hits.enum.filter (fun p => decide (θ ≤ 1 - p.2.distance))).map
              (fun p => { chunk_id := p.2.id, content := p.2.document,
                          metadata := p.2.metadata, similarity := 1 - p.2.distance,
                          rank := p.1 + 1 : RetrievedChunk })).take k)
      ∧ (searchPost hits θ k).Pairwise (fun a b => a.rank < b.rank)
      ∧ (∀ r ∈ searchPost hits θ k, θ ≤ r.similarity) := by
  intro hits θ k
  refine ⟨?_, ?_, ?_⟩
  · unfold searchPost
    rw [searchLoop_eq θ hits 0]
    rfl
  · exact (searchLoop_ranks_sorted θ hits 0).sublist (List.take_sublist _ _)
  · intro r hr
    exact searchLoop_similarity_ge θ hits 0 r (List.mem_of_mem_take hr)

/-- **C5, counterexample.** Under `cfgFB` (`max_chunk_size = 4`) a file of
exactly `3 * max_chunk_size = 12` characters and no newlines yields one
`text_block` chunk of 12 characters — not 3 chunks of `max_chunk_size` —
because the fallback accumulates whole lines before testing the size. -/
theorem c5_counterexample :
    (str "aaaaaaaaaaaa").length = 3 * cfgFB.max_chunk_size ∧
    (∀ ch ∈ str "aaaaaaaaaaaa", ch ≠ '\n') ∧
    (fallbackChunking cfgFB md5hexModel (str "data.xyz") (str "unknown")
        (str "aaaaaaaaaaaa")).length = 1 ∧
    (fallbackChunking cfgFB md5hexModel (str "data.xyz") (str "unknown")
        (str "aaaaaaaaaaaa")).map (fun c => c.content.length) = [12] := by decide

/-- **C5, amended.** The fallback chunker accumulates whole lines until the
accumulated character count reaches `max_chunk_size`, so a file with no
newline whose length is at least `max_chunk_size` (in particular one of
exactly `3 * max_chunk_size` characters) yields exactly one `text_block`
chunk holding the entire file: a single long line is never split. -/
theorem c5_no_newline_single_chunk :
    ∀ (cfg : TreeSitterConfig) (md5hex : Str → Str) (fp lang content : Str),
      (∀ ch ∈ content, ch ≠ '\n') →
      cfg.max_chunk_size ≤ content.length →
      fallbackChunking cfg md5hex fp lang content
        = [mkCodeChunk md5hex content (str "text_block") lang fp 0 0
            none none none none] := by
  intro cfg md5hex fp lang content hnl hmax
  unfold fallbackChunking
  rw [splitNl_of_no_newline content hnl]
  have hcond : cfg.max_chunk_size ≤ 0 + content.length := by simpa using hmax
  simp [fallbackLoop, hcond, joinNl]

/-- Witness for C5 (amended): the 12-character newline-free file under
`cfgFB` produces exactly the one whole-file chunk. -/
theorem c5_witness :
    (∀ ch ∈ str "aaaaaaaaaaaa", ch ≠ '\n') ∧
    cfgFB.max_chunk_size ≤ (str "aaaaaaaaaaaa").length ∧
    fallbackChunking cfgFB md5hexModel (str "d.xyz") (str "unknown") (str "aaaaaaaaaaaa")
      = [mkCodeChunk md5hexModel (str "aaaaaaaaaaaa") (str "text_block") (str "unknown")
          (str "d.xyz") 0 0 none none none none] :=
  ⟨by decide, by decide,
    c5_no_newline_single_chunk cfgFB md5hexModel (str "d.xyz") (str "unknown")
      (str "aaaaaaaaaaaa") (by decide) (by decide)⟩

/-- The batching loop computes exactly the spec-side partition mapped to
payloads, and counts every input chunk once. -/
theorem addLoop_eq_spec : ∀ (b : Nat) (l : List CodeChunk),
    addLoop (b + 1) l = ((specBatches (b + 1) l).map mkBatchWrite, l.length)
  | _, [] => by simp [addLoop, specBatches]
  | b, c :: cs => by
      have ih := addLoop_eq_spec b (cs.drop b)
      rw [addLoop, specBatches]
      simp only [ih, List.map_cons]
      have hlen : (List.take (b + 1) (c :: cs)).length + (List.drop b cs).length
          = (c :: cs).length := by
        simp only [List.length_take, List.length_drop, List.length_cons]
        omega
      rw [hlen]
termination_by _ l => l.length
decreasing_by
  simp only [List.length_drop, List.length_cons]
  omega

/-- The spec-side partition concatenates back to the input list. -/
theorem specBatches_flatten : ∀ (b : Nat) (l : List CodeChunk),
    (specBatches (b + 1) l).flatten = l
  | _, [] => by simp [specBatches]
  | b, c :: cs => by
      have ih := specBatches_flatten b (cs.drop b)
      rw [specBatches]
      simp only [List.flatten_cons, ih, List.take_succ_cons]
      rw [List.cons_append, List.take_append_drop]
termination_by _ l => l.length
decreasing_by
  simp only [List.length_drop, List.length_cons]
  omega

/-- Every batch of the spec-side partition is non-empty and no larger than
the batch size. -/
theorem specBatches_batch_size : ∀ (b : Nat) (l : List CodeChunk),
    ∀ batch ∈ specBatches (b + 1) l, batch ≠ [] ∧ batch.length ≤ b + 1
  | _, [] => by simp [specBatches]
  | b, c :: cs => by
      intro batch hb
      rw [specBatches] at hb
      rcases List.mem_cons.mp hb with rfl | hb₂
      · refine ⟨by simp, ?_⟩
        simp
      · exact specBatches_batch_size b (cs.drop b) batch hb₂
termination_by _ l => l.length
decreasing_by
  simp only [List.length_drop, List.length_cons]
  omega

/-- The spec-side partition is empty exactly on the empty input. -/
theorem specBatches_eq_nil_iff (b : Nat) (l : List CodeChunk) :
    specBatches (b + 1) l = [] ↔ l = [] := by
  cases l with
  | nil => simp [specBatches]
  | cons c cs => rw [specBatches]; simp

/-- Every batch of the spec-side partition except the last has length
exactly the batch size. -/
theorem specBatches_full_but_last : ∀ (b : Nat) (l : List CodeChunk),
    ∀ batch ∈ (specBatches (b + 1) l).dropLast, batch.length = b + 1
  | _, [] => by simp [specBatches]
  | b, c :: cs => by
      intro batch hmem
      rw [specBatches] at hmem
      rcases hdrop : cs.drop b with _ | ⟨d, ds⟩
      · rw [hdrop] at hmem
        simp [specBatches] at hmem
      · rw [hdrop] at hmem
        have hrest : specBatches (b + 1) (d :: ds)
            = (d :: ds).take (b + 1) :: specBatches (b + 1) (ds.drop b) := by
          rw [specBatches]
        rw [hrest] at hmem
        simp only [List.dropLast_cons₂, List.mem_cons] at hmem
        rcases hmem with rfl | hmem₂
        · have hblen : b < cs.length := by
            by_contra hle
            have hnil : cs.drop b = [] :=
              List.drop_eq_nil_of_le (Nat.le_of_not_lt hle)
            rw [hnil] at hdrop
            cases hdrop
          simp only [List.length_take, List.length_cons]
          omega
        · have hmem₃ : batch ∈ (specBatches (b + 1) (cs.drop b)).dropLast := by
            rw [hdrop, hrest]
            simpa [List.dropLast_cons₂] using hmem₂
          exact specBatches_full_but_last b (cs.drop b) batch hmem₃
termination_by _ l => l.length
decreasing_by
  simp only [List.length_drop, List.length_cons]
  omega

/-- **C6.** For every chunk list and positive batch size, `add_chunks`
performs exactly the consecutive-batch partition of the list (each
`collection.add` payload the id/document/metadata triples of one batch),
where the batches concatenate back to the input, every batch is non-empty
and at most `batch_size` long, every batch but the last is exactly
`batch_size` long, and the returned total is the input length; the empty
list returns 0 with no store write. -/
theorem c6_add_chunks_batching :
    ∀ (chunks : List CodeChunk) (bs : Int), 0 < bs →
      addChunks chunks bs
          = some ((specBatches bs.toNat chunks).map mkBatchWrite, chunks.length)
        ∧ (specBatches bs.toNat chunks).flatten = chunks
        ∧ (∀ batch ∈ specBatches bs.toNat chunks,
            batch ≠ [] ∧ batch.length ≤ bs.toNat)
        ∧ (∀ batch ∈ (specBatches bs.toNat chunks).dropLast,
            batch.length = bs.toNat)
        ∧ addChunks ([] : List CodeChunk) bs = some ([], 0) := by
  intro chunks bs hbs
  obtain ⟨b, hb⟩ : ∃ b : Nat, bs.toNat = b + 1 := by
    have hpos : 0 < bs.toNat := by omega
    exact ⟨bs.toNat - 1, by omega⟩
  have hnotneg : ¬ bs < 0 := by omega
  have hnotzero : ¬ bs = 0 := by omega
  refine ⟨?_, ?_, ?_, ?_, ?_⟩
  · cases chunks with
    | nil => simp [addChunks, specBatches]
    | cons c cs =>
      simp only [addChunks, List.isEmpty_cons, if_neg hnotneg, if_neg hnotzero,
        Bool.false_eq_true, if_false]
      rw [hb, addLoop_eq_spec b (c :: cs)]
  · rw [hb]; exact specBatches_flatten b chunks
  · rw [hb]; exact specBatches_batch_size b chunks
  · rw [hb]; exact specBatches_full_but_last b chunks
  · simp [addChunks]

/-- A first concrete chunk for the C6 witness. -/
def c6chunk1 : CodeChunk :=
  mkCodeChunk md5hexModel (str "def f(): pass") (str "function") (str "python")
    (str "w.py") 0 0 (some (str "f")) none none none

/-- A second concrete chunk for the C6 witness. -/
def c6chunk2 : CodeChunk :=
  mkCodeChunk md5hexModel (str "def g(): pass") (str "function") (str "python")
    (str "w.py") 2 2 (some (str "g")) none none none

/-- Witness for C6: two chunks with batch size 1 are written as the
partition's payloads and counted as 2. -/
theorem c6_witness :
    (0 : Int) < 1 ∧
    addChunks [c6chunk1, c6chunk2] 1
      = some ((specBatches (1 : Int).toNat [c6chunk1, c6chunk2]).map mkBatchWrite,
          [c6chunk1, c6chunk2].length) :=
  ⟨by decide, (c6_add_chunks_batching [c6chunk1, c6chunk2] 1 (by decide)).1⟩

/-- When every hit falls below the threshold, the search loop keeps
nothing. -/
theorem searchLoop_nil_of_all_below (θ : ℚ) :
    ∀ (hits : List QueryHit) (i : Nat),
      (∀ h ∈ hits, 1 - h.distance < θ) → searchLoop θ i hits = [] := by
  intro hits
  induction hits with
  | nil => intro i _; rfl
  | cons h rest ih =>
    intro i hall
    have hh : 1 - h.distance < θ := hall h (List.mem_cons_self _ _)
    simp only [searchLoop, if_neg (not_le.mpr hh)]
    exact ih (i + 1) (fun x hx => hall x (List.mem_cons_of_mem _ hx))

/-- **C7.** `search` edge cases return the empty list rather than raising:
an empty store answer (which also covers a metadata filter that excludes
every chunk, since the store then returns no hits) yields `[]`, and so does
an answer in which no hit reaches the similarity threshold. -/
theorem c7_search_empty_results :
    ∀ (θ : ℚ) (k : Nat) (hits : List QueryHit),
      searchPost [] θ k = []
      ∧ ((∀ h ∈ hits, 1 - h.distance < θ) → searchPost hits θ k = []) := by
  intro θ k hits
  constructor
  · simp [searchPost, searchLoop]
  · intro hall
    unfold searchPost
    rw [searchLoop_nil_of_all_below θ hits 0 hall]
    exact List.take_nil

/-- A store hit whose similarity `1 - 95/100` is below the default
threshold `1/10`, for the C7 witness. -/
def c7hit : QueryHit :=
  { id := str "python_function_ab", document := str "def f(): pass",
    metadata := [], distance := 95 / 100 }

/-- Witness for C7: the empty store answer and an all-below-threshold answer
both produce the empty result list. -/
theorem c7_witness :
    searchPost [] (1 / 10) 8 = [] ∧ searchPost [c7hit] (1 / 10) 8 = [] :=
  ⟨(c7_search_empty_results (1 / 10) 8 [c7hit]).1,
   (c7_search_empty_results (1 / 10) 8 [c7hit]).2 (by
      intro h hh
      rw [List.mem_singleton] at hh
      subst hh
      norm_num [c7hit])⟩

/-- The import loop is the filter-and-map of the child list over the
import-like node types. -/
theorem importsLoop_eq_filter (md5hex : Str → Str) (codeLines : List Str)
    (fp lang : Str) :
    ∀ ns : List TSNode,
      importsLoop md5hex codeLines fp lang ns
        = (ns.filter (fun n => decide (n.nodeType ∈ importTypes lang))).map
            (fun n => mkImportChunk md5hex n codeLines fp lang) := by
  intro ns
  induction ns with
  | nil => rfl
  | cons n rest ih =>
    by_cases hn : n.nodeType ∈ importTypes lang
    · simp [importsLoop, hn, List.filter, ih]
    · simp [importsLoop, hn, List.filter, ih]

/-- **C8.** Import extraction looks only at the direct children of the file
root: it emits exactly one import chunk per import-like direct child (the
filter-map characterisation), and any two roots with the same child list
produce the same import chunks, so an import statement nested anywhere
deeper is never emitted. -/
theorem c8_imports_direct_children_only :
    ∀ (md5hex : Str → Str) (codeLines : List Str) (fp lang : Str)
      (root : TSNode),
      extractImports md5hex root codeLines fp lang
        = (root.children.filter (fun n => decide (n.nodeType ∈ importTypes lang))).map
            (fun n => mkImportChunk md5hex n codeLines fp lang)
      ∧ ∀ root₂ : TSNode, root.children = root₂.children →
          extractImports md5hex root codeLines fp lang
            = extractImports md5hex root₂ codeLines fp lang := by
  intro md5hex codeLines fp lang root
  constructor
  · exact importsLoop_eq_filter md5hex codeLines fp lang root.children
  · intro root₂ hch
    unfold extractImports
    rw [hch]

/-- A top-level `import os` node of the C8 witness file
`"import os\ndef f():\n    import sys\n    return sys"`. -/
def importOs : TSNode := .mk "import_statement" (0, 0) (0, 9) [] []

/-- The nested `import sys` node of the C8 witness file, inside the
function body. -/
def importSys : TSNode := .mk "import_statement" (2, 4) (2, 14) [] []

/-- The `return sys` node of the C8 witness file. -/
def returnSys : TSNode := .mk "return_statement" (3, 4) (3, 14) [] []

/-- The function body block of the C8 witness file, holding the nested
import. -/
def fBlock : TSNode := .mk "block" (2, 4) (3, 14) [] [importSys, returnSys]

/-- The `identifier` node `f` of the C8 witness file. -/
def idF : TSNode := .mk "identifier" (1, 4) (1, 5) [] []

/-- The `function_definition` node of the C8 witness file. -/
def funcDefF : TSNode :=
  .mk "function_definition" (1, 0) (3, 14) [("name", idF), ("body", fBlock)]
    [idF, fBlock]

/-- The file root of the C8 witness file. -/
def rootImports : TSNode := .mk "module" (0, 0) (3, 14) [] [importOs, funcDefF]

/-- The same child list under a root with a different span, for the C8
witness. -/
def rootImports₂ : TSNode := .mk "module" (0, 0) (9, 0) [] [importOs, funcDefF]

/-- The lines of the C8 witness file. -/
def importLines : List Str :=
  [str "import os", str "def f():", str "    import sys", str "    return sys"]

/-- Witness for C8: on a file with one top-level and one nested import, the
extraction depends only on the root's children — and, by direct evaluation,
emits exactly one import chunk (the nested `import sys` is not emitted). -/
theorem c8_witness :
    extractImports md5hexModel rootImports importLines (str "a.py") (str "python")
        = extractImports md5hexModel rootImports₂ importLines (str "a.py") (str "python")
    ∧ (extractImports md5hexModel rootImports importLines (str "a.py") (str "python")).map
        (fun c => (c.content, c.start_line))
      = [(str "import os", 0)] :=
  ⟨(c8_imports_direct_children_only md5hexModel importLines (str "a.py") (str "python")
      rootImports).2 rootImports₂ rfl,
   by decide⟩

/-- **C9.** `import_chunks` rebuilds every record with `chunk_id` equal to
the stored id — whatever the hash oracle, so identity is never recomputed
from `(file_path, start_line, content)` — and feeds the rebuilt chunks to
the very same `add_chunks` path (default batch size 100). -/
theorem c9_import_preserves_identity :
    ∀ (f g : Str → Str) (records : List ChunkRecord),
      (records.map (recordToChunk f)).map (fun c => c.chunk_id)
          = records.map (fun r => r.id)
      ∧ records.map (recordToChunk f) = records.map (recordToChunk g)
      ∧ importChunks f records = addChunks (records.map (recordToChunk f)) 100 := by
  intro f g records
  refine ⟨?_, ?_, rfl⟩
  · rw [List.map_map]
    exact List.map_congr_left (fun r _ => rfl)
  · exact List.map_congr_left (fun r _ => rfl)

/-- The spans `(start_line, end_line)` in a list are contiguous, in order,
non-overlapping and exactly cover lines `s..total-1`: each span starts where
the previous ended plus one and the last ends at `total - 1`. -/
def coversFrom (s total : Nat) : List (Nat × Nat) → Prop
  | [] => s = total
  | (a, b) :: rest => a = s ∧ s ≤ b ∧ coversFrom (b + 1) total rest

/-- The fallback loop never returns an empty chunk list while it still holds
accumulated lines or unread lines. -/
theorem fallbackLoop_ne_nil (cfg : TreeSitterConfig) (md5hex : Str → Str)
    (fp lang : Str) (total : Nat) :
    ∀ (rest : List Str) (i : Nat) (cur : List Str) (size : Nat),
      cur ≠ [] ∨ rest ≠ [] →
      fallbackLoop cfg md5hex fp lang total rest i cur size ≠ [] := by
  intro rest
  induction rest with
  | nil =>
    intro i cur size hor
    rcases hor with hcur | hrest
    · have hie : cur.isEmpty = false := by
        cases cur with
        | nil => exact absurd rfl hcur
        | cons a as => rfl
      simp [fallbackLoop, hie]
    · exact absurd rfl hrest
  | cons line rest ih =>
    intro i cur size _
    by_cases hc : cfg.max_chunk_size ≤ size + line.length
    · simp only [fallbackLoop, if_pos hc]
      simp
    · simp only [fallbackLoop, if_neg hc]
      exact ih (i + 1) (cur ++ [line]) (size + line.length) (Or.inl (by simp))

/-- The contents of the fallback chunks join back (with single newlines) to
the join of the accumulated and remaining lines. -/
theorem fallbackLoop_content (cfg : TreeSitterConfig) (md5hex : Str → Str)
    (fp lang : Str) (total : Nat) :
    ∀ (rest : List Str) (i : Nat) (cur : List Str) (size : Nat),
      joinNl ((fallbackLoop cfg md5hex fp lang total rest i cur size).map
          (fun c => c.content))
        = joinNl (cur ++ rest) := by
  intro rest
  induction rest with
  | nil =>
    intro i cur size
    by_cases hcur : cur = []
    · subst hcur
      simp [fallbackLoop, joinNl]
    · have hie : cur.isEmpty = false := by
        cases cur with
        | nil => exact absurd rfl hcur
        | cons a as => rfl
      simp [fallbackLoop, hie, mkCodeChunk, joinNl]
  | cons line rest ih =>
    intro i cur size
    by_cases hc : cfg.max_chunk_size ≤ size + line.length
    · simp only [fallbackLoop, if_pos hc]
      rcases hrest : rest with _ | ⟨r0, rs⟩
      · subst hrest
        simp [fallbackLoop, mkCodeChunk, joinNl]
      · have hne : fallbackLoop cfg md5hex fp lang total (r0 :: rs) (i + 1) [] 0 ≠ [] :=
          fallbackLoop_ne_nil cfg md5hex fp lang total (r0 :: rs) (i + 1) [] 0
            (Or.inr (by simp))
        have hmapne :
            (fallbackLoop cfg md5hex fp lang total (r0 :: rs) (i + 1) [] 0).map
              (fun c => c.content) ≠ [] := by
          simpa using hne
        subst hrest
        have hcs := ih (i + 1) [] 0
        calc joinNl (((mkCodeChunk md5hex (joinNl (cur ++ [line])) (str "text_block")
                lang fp (i + 1 - (cur ++ [line]).length) i none none none none) ::
              fallbackLoop cfg md5hex fp lang total (r0 :: rs) (i + 1) [] 0).map
                (fun c => c.content))
            = joinNl ([joinNl (cur ++ [line])] ++
                (fallbackLoop cfg md5hex fp lang total (r0 :: rs) (i + 1) [] 0).map
                  (fun c => c.content)) := by simp [mkCodeChunk]
          _ = joinNl [joinNl (cur ++ [line])] ++ '\n' ::
                joinNl ((fallbackLoop cfg md5hex fp lang total (r0 :: rs) (i + 1) [] 0).map
                  (fun c => c.content)) :=
              joinNl_append _ _ (by simp) hmapne
          _ = joinNl (cur ++ [line]) ++ '\n' :: joinNl (r0 :: rs) := by
              rw [hcs]; simp [joinNl]
          _ = joinNl ((cur ++ [line]) ++ r0 :: rs) :=
              (joinNl_append (cur ++ [line]) (r0 :: rs) (by simp) (by simp)).symm
          _ = joinNl (cur ++ line :: r0 :: rs) := by
              rw [List.append_assoc]
              rfl
    · simp only [fallbackLoop, if_neg hc]
      rw [ih (i + 1) (cur ++ [line]) (size + line.length)]
      rw [List.append_assoc]
      rfl

/-- Started with `cur` holding the lines `i - cur.length .. i - 1`, the
fallback loop emits spans that exactly cover lines `i - cur.length` to the
end of the file. -/
theorem fallbackLoop_covers (cfg : TreeSitterConfig) (md5hex : Str → Str)
    (fp lang : Str) (total : Nat) :
    ∀ (rest : List Str) (i : Nat) (cur : List Str) (size : Nat),
      i + rest.length = total → cur.length ≤ i →
      coversFrom (i - cur.length) total
        ((fallbackLoop cfg md5hex fp lang total rest i cur size).map
          (fun c => (c.start_line, c.end_line))) := by
  intro rest
  induction rest with
  | nil =>
    intro i cur size htot hle
    simp only [List.length_nil, Nat.add_zero] at htot
    subst htot
    by_cases hcur : cur = []
    · subst hcur
      simp [fallbackLoop, coversFrom]
    · have hie : cur.isEmpty = false := by
        cases cur with
        | nil => exact absurd rfl hcur
        | cons a as => rfl
      have h1 : 1 ≤ cur.length := by
        cases cur with
        | nil => exact absurd rfl hcur
        | cons a as => simp
      simp only [fallbackLoop, hie, Bool.false_eq_true, if_false, List.map_cons,
        List.map_nil, mkCodeChunk]
      refine ⟨rfl, by omega, ?_⟩
      show coversFrom (i - 1 + 1) i []
      simp only [coversFrom]
      omega
  | cons line rest ih =>
    intro i cur size htot hle
    simp only [List.length_cons] at htot
    by_cases hc : cfg.max_chunk_size ≤ size + line.length
    · simp only [fallbackLoop, if_pos hc, List.map_cons, mkCodeChunk]
      have hstart : i + 1 - (cur ++ [line]).length = i - cur.length := by
        simp only [List.length_append, List.length_cons, List.length_nil]
        omega
      refine ⟨hstart, by omega, ?_⟩
      have := ih (i + 1) [] 0 (by omega) (by simp)
      simpa using this
    · simp only [fallbackLoop, if_neg hc]
      have := ih (i + 1) (cur ++ [line]) (size + line.length)
        (by omega) (by simp; omega)
      have hstart : i + 1 - (cur ++ [line]).length = i - cur.length := by
        simp only [List.length_append, List.length_cons, List.length_nil]
        omega
      rw [hstart] at this
      exact this

/-- **C10.** The `text_block` chunks of the fallback chunker carry
contiguous, non-overlapping, in-order line spans that cover every line of
the file exactly once (`coversFrom 0 lines.length`), and joining the chunk
contents with single newlines reproduces the file text exactly as read. -/
theorem c10_fallback_partitions_file :
    ∀ (cfg : TreeSitterConfig) (md5hex : Str → Str) (fp lang content : Str),
      coversFrom 0 (splitNl content).length
        ((fallbackChunking cfg md5hex fp lang content).map
          (fun c => (c.start_line, c.end_line)))
      ∧ joinNl ((fallbackChunking cfg md5hex fp lang content).map
          (fun c => c.content)) = content := by
  intro cfg md5hex fp lang content
  constructor
  · have := fallbackLoop_covers cfg md5hex fp lang (splitNl content).length
      (splitNl content) 0 [] 0 (by simp) (by simp)
    simpa [fallbackChunking] using this
  · have := fallbackLoop_content cfg md5hex fp lang (splitNl content).length
      (splitNl content) 0 [] 0
    simp only [List.nil_append] at this
    unfold fallbackChunking
    rw [this, joinNl_splitNl]
